import Mathlib

/-! A verification model of the `probing` package (`prober.go`).

The Go program keeps a map from target ids to pointers to `status` objects and
starts one goroutine per target.  The model below makes the Go heap explicit:

* a `status` object lives in `World.heap`, its address is its index there;
* `prober.targets` is the Go map `map[string]*status`, kept as an association
  list from ids to addresses;
* every goroutine started by `AddHTTP` is a `Monitor` with a program counter,
  advanced by the scheduler events of `step`;
* the four methods hold `p.mu` from their first to their last statement, so each
  is one atomic transition of the world.
-/

namespace probing

/-! ## Values -/

/-- An instant of `time.Time`; the Go zero value is `0`. -/
abbrev Time := Int

/-- A `time.Duration`, signed as in Go. -/
abbrev Duration := Int

/-- The address of a heap-allocated `status`, the model of a `*status`. -/
abbrev Addr := Nat

/-- The two package-level error values of lines 11-14. -/
inductive GoError
  | ErrNotFound
  | ErrExist
  deriving DecidableEq, Repr

/-- How a Go call ends: it returns a value, or a run-time panic unwinds it. -/
inductive Outcome (α : Type)
  | returned (v : α)
  | panicked
  deriving DecidableEq, Repr

/-- State of a `chan struct{}` on which nothing is ever sent: a receive on it
can proceed exactly when it is `closed`. -/
inductive Chan
  | opened
  | closed
  deriving DecidableEq, Repr

/-- Modelled from the spec: the data fields of the `status` struct, which is declared
outside `prober.go`, follow the StatusTracker of the data model.  The field `stopC`
is the one `prober.go` itself initialises (line 39); the channel is created together
with the struct and reached only through it, so its state is kept inside the cell. -/
structure status where
  startedAt : Time
  lastCheckAt : Time
  lastSuccessAt : Time
  lastLatency : Duration
  totalChecks : Nat
  totalFailures : Nat
  consecutiveFailures : Nat
  stopC : Chan
  deriving DecidableEq, Repr

/-- Line 39, `&status{stopC: make(chan struct{})}`: every field not listed in the
composite literal has its Go zero value and the channel is fresh, hence not closed. -/
def newStatus : status :=
  { startedAt := 0, lastCheckAt := 0, lastSuccessAt := 0, lastLatency := 0,
    totalChecks := 0, totalFailures := 0, consecutiveFailures := 0,
    stopC := Chan.opened }

/-- Modelled from the spec: `record` is defined outside `prober.go`; this is
`recordSuccess(latency, remoteTimestamp)` of the StatusTracker, with `now` the
clock read by the helper itself. -/
def status.record (s : status) (now : Time) (latency : Duration) (remoteTimestamp : Time) :
    status :=
  { s with
    lastCheckAt := now
    lastLatency := latency
    lastSuccessAt := remoteTimestamp
    totalChecks := s.totalChecks + 1
    consecutiveFailures := 0 }

/-- Modelled from the spec: `recordFailure` is defined outside `prober.go`; the
fields of the last success are left alone. -/
def status.recordFailure (s : status) (now : Time) : status :=
  { s with
    lastCheckAt := now
    totalChecks := s.totalChecks + 1
    totalFailures := s.totalFailures + 1
    consecutiveFailures := s.consecutiveFailures + 1 }

/-- Modelled from the spec: `reset` is defined outside `prober.go`; it puts the data
fields back to their creation state, which line 39 makes the zero values.  The stop
channel is not a data field of the tracker and is kept. -/
def status.reset (s : status) : status :=
  { newStatus with stopC := s.stopC }

/-- The decoded JSON payload; `prober.go` reads its fields `OK` and `Now`. -/
structure Health where
  OK : Bool
  Now : Time
  deriving DecidableEq, Repr

/-- What the environment answers to one check: `http.Get` fails, or it yields a
response with some status code whose body either decodes to a `Health`
(`some`) or makes `Decode` return an error (`none`). -/
inductive HttpResult
  | failed
  | response (statusCode : Nat) (decoded : Option Health)
  deriving DecidableEq, Repr

/-! ## The Go map `targets` -/

/-- The map read `p.targets[id]` with its `ok` flag. -/
def mapLookup : List (String × Addr) → String → Option Addr
  | [], _ => none
  | (k, v) :: rest, id => if k = id then some v else mapLookup rest id

/-- The builtin `delete(p.targets, id)`. -/
def mapDelete (m : List (String × Addr)) (id : String) : List (String × Addr) :=
  m.filter (fun e => decide (e.1 ≠ id))

/-- The map write `p.targets[id] = s`: insert, or overwrite the binding of `id`. -/
def mapAssign (m : List (String × Addr)) (id : String) (s : Addr) : List (String × Addr) :=
  (id, s) :: mapDelete m id

/-! ## Goroutines and the world -/

/-- A `time.Ticker`: its period, whether its channel `C` (capacity one) holds a
tick, and whether `Stop` has been called. -/
structure Ticker where
  interval : Duration
  C : Bool
  stopped : Bool
  deriving DecidableEq, Repr

/-- Where the goroutine of lines 44-71 stands. -/
inductive Pc
  | selecting
  | checking (start : Time)
  | exited
  deriving DecidableEq, Repr

/-- The goroutine started at line 44 with the variables it closes over. -/
structure Monitor where
  s : Addr
  endpoint : String
  ticker : Ticker
  pc : Pc
  deriving DecidableEq, Repr

/-- The `prober` struct (lines 23-26); `mu` is modelled by the atomicity of the
methods. -/
structure prober where
  targets : List (String × Addr)
  deriving DecidableEq, Repr

/-- The whole program state: the heap of `status` objects, the prober, and the
goroutines started so far. -/
structure World where
  heap : List status
  p : prober
  goroutines : List Monitor
  deriving DecidableEq, Repr

/-- Reading through a `*status`. -/
def deref (w : World) (a : Addr) : Option status :=
  w.heap[a]?

/-- An id is active when the map has an entry for it. -/
def active (w : World) (id : String) : Prop :=
  (mapLookup w.p.targets id).isSome = true

instance (w : World) (id : String) : Decidable (active w id) := by
  unfold active; infer_instance

/-- The constructor `NewProber()` (lines 28-30) in a program that has allocated nothing
yet: an empty map, an empty heap, no goroutine. -/
def NewProber : World :=
  { heap := [], p := { targets := [] }, goroutines := [] }

/-! ## The methods of `*prober` -/

/-- The method `AddHTTP` (lines 32-74).  The new `status` is allocated at the next free
address and stored in the map before the ticker is made; `time.NewTicker` panics on
a non-positive interval, after which the deferred `Unlock` runs and nothing else. -/
def prober.AddHTTP (w : World) (id : String) (probingInterval : Duration)
    (endpoint : String) : World × Outcome (Option GoError) :=
  match mapLookup w.p.targets id with
  | some _ => (w, Outcome.returned (some GoError.ErrExist))
  | none =>
    let s : Addr := w.heap.length
    let w1 : World :=
      { w with heap := w.heap ++ [newStatus], p := { targets := mapAssign w.p.targets id s } }
    if probingInterval ≤ 0 then
      (w1, Outcome.panicked)
    else
      let ticker : Ticker := { interval := probingInterval, C := false, stopped := false }
      let g : Monitor := { s := s, endpoint := endpoint, ticker := ticker, pc := Pc.selecting }
      ({ w1 with goroutines := w1.goroutines ++ [g] }, Outcome.returned none)

/-- The method `Remove` (lines 76-87).  `close` panics on a channel that is already closed,
and so does reading `s.stopC` through an invalid pointer; the map is then untouched. -/
def prober.Remove (w : World) (id : String) : World × Outcome (Option GoError) :=
  match mapLookup w.p.targets id with
  | none => (w, Outcome.returned (some GoError.ErrNotFound))
  | some s =>
    match deref w s with
    | none => (w, Outcome.panicked)
    | some st =>
      match st.stopC with
      | Chan.closed => (w, Outcome.panicked)
      | Chan.opened =>
        ({ w with
           heap := w.heap.set s { st with stopC := Chan.closed }
           p := { targets := mapDelete w.p.targets id } },
         Outcome.returned none)

/-- The method `Reset` (lines 89-99); calling `s.reset()` through an invalid pointer
panics, and the world is then untouched. -/
def prober.Reset (w : World) (id : String) : World × Outcome (Option GoError) :=
  match mapLookup w.p.targets id with
  | none => (w, Outcome.returned (some GoError.ErrNotFound))
  | some s =>
    match deref w s with
    | none => (w, Outcome.panicked)
    | some st => ({ w with heap := w.heap.set s st.reset }, Outcome.returned none)

/-- The method `Status` (lines 101-110).  The first component of the result is the returned
interface value: `none` for `nil`, `some s` for the pointer `s` taken from the map. -/
def prober.Status (w : World) (id : String) :
    World × Outcome (Option Addr × Option GoError) :=
  match mapLookup w.p.targets id with
  | none => (w, Outcome.returned (none, some GoError.ErrNotFound))
  | some s => (w, Outcome.returned (some s, none))

/-! ## The monitor goroutine -/

/-- A call made by the goroutine on its tracker. -/
inductive Write
  | recordFailure
  | record (latency : Duration) (remoteTimestamp : Time)
  deriving DecidableEq, Repr

/-- Lines 51-65, the part of one loop iteration after `http.Get` has returned:
the calls it makes on `s`, in order.  `start` is the clock read at line 48 and
`finish` the clock at which `time.Since(start)` is evaluated. -/
def tickWrites (start : Time) (r : HttpResult) (finish : Time) : List Write :=
  match r with
  | HttpResult.failed => [Write.recordFailure]
  | HttpResult.response _ decoded =>
    match decoded with
    | none => [Write.recordFailure]
    | some hh =>
      if !hh.OK then [Write.recordFailure]
      else [Write.record (finish - start) hh.Now]

/-- Carrying out one call on a tracker; `now` is the clock the helper reads. -/
def applyWrite (now : Time) (st : status) : Write → status
  | Write.recordFailure => st.recordFailure now
  | Write.record latency remoteTimestamp => st.record now latency remoteTimestamp

/-- The scheduler events of goroutine number `g`.
* `tick`: the runtime timer puts a tick into `ticker.C` (dropped when one is there);
* `selectTick`: `select` takes `case <-ticker.C` and line 48 reads the clock;
* `checkDone`: `http.Get` and the decoding end with `r`, lines 51-65 run;
* `selectStop`: `select` takes `case <-s.stopC`, lines 67-68 run. -/
inductive Event
  | tick (g : Nat)
  | selectTick (g : Nat) (start : Time)
  | checkDone (g : Nat) (r : HttpResult) (finish : Time) (now : Time)
  | selectStop (g : Nat)
  deriving DecidableEq, Repr

/-- The goroutine an event belongs to. -/
def Event.goroutine : Event → Nat
  | Event.tick g => g
  | Event.selectTick g _ => g
  | Event.checkDone g _ _ _ => g
  | Event.selectStop g => g

/-- One scheduler step; `none` when the event cannot happen in `w`.  A `select`
with several ready cases may take any of them, so both `selectTick` and
`selectStop` can be possible in one state. -/
def step (w : World) : Event → Option World
  | Event.tick g =>
    match w.goroutines[g]? with
    | none => none
    | some m =>
      if m.ticker.stopped then none
      else some { w with goroutines := w.goroutines.set g { m with ticker := { m.ticker with C := true } } }
  | Event.selectTick g start =>
    match w.goroutines[g]? with
    | none => none
    | some m =>
      match m.pc with
      | Pc.selecting =>
        if m.ticker.C then
          some { w with
                 goroutines := w.goroutines.set g
                   { m with ticker := { m.ticker with C := false }, pc := Pc.checking start } }
        else none
      | _ => none
  | Event.checkDone g r finish now =>
    match w.goroutines[g]? with
    | none => none
    | some m =>
      match m.pc with
      | Pc.checking start =>
        match deref w m.s with
        | none => none
        | some st =>
          some { w with
                 heap := w.heap.set m.s ((tickWrites start r finish).foldl (applyWrite now) st)
                 goroutines := w.goroutines.set g { m with pc := Pc.selecting } }
      | _ => none
  | Event.selectStop g =>
    match w.goroutines[g]? with
    | none => none
    | some m =>
      match m.pc with
      | Pc.selecting =>
        match deref w m.s with
        | none => none
        | some st =>
          match st.stopC with
          | Chan.closed =>
            some { w with
                   goroutines := w.goroutines.set g
                     { m with ticker := { m.ticker with stopped := true }, pc := Pc.exited } }
          | Chan.opened => none
      | _ => none

/-! ## Executions -/

/-- What can happen to the world: a method call by some client, or a scheduler
event of a monitor goroutine. -/
inductive Call
  | AddHTTP (id : String) (probingInterval : Duration) (endpoint : String)
  | Remove (id : String)
  | Reset (id : String)
  | Status (id : String)
  | sched (e : Event)
  deriving DecidableEq, Repr

/-- The world after a call; an event that cannot happen leaves it as it is, and a call
that panics leaves the world it had reached when the panic started (its deferred
`Unlock` has run). -/
def exec (w : World) : Call → World
  | Call.AddHTTP id probingInterval endpoint => (prober.AddHTTP w id probingInterval endpoint).1
  | Call.Remove id => (prober.Remove w id).1
  | Call.Reset id => (prober.Reset w id).1
  | Call.Status id => (prober.Status w id).1
  | Call.sched e => (step w e).getD w

/-- The world after a sequence of calls. -/
def run (w : World) (cs : List Call) : World :=
  cs.foldl exec w

/-- The states the program can be in. -/
def Reachable (w : World) : Prop :=
  ∃ cs : List Call, run NewProber cs = w

/-- The shape of the worlds of an execution: every tracker the map points to is
allocated and its stop channel is not closed, no tracker is the value of two map
entries, and every goroutine watches an allocated tracker. -/
def Inv (w : World) : Prop :=
  (∀ id a, (id, a) ∈ w.p.targets → (deref w a).map status.stopC = some Chan.opened) ∧
  (w.p.targets.map Prod.snd).Nodup ∧
  (∀ m ∈ w.goroutines, m.s < w.heap.length)

/-- The tracker at address `a` is allocated, no goroutine watches it, and its data
fields are what line 39 made them. -/
def Unwatched (a : Addr) (w : World) : Prop :=
  (∀ m ∈ w.goroutines, m.s ≠ a) ∧
  ∃ st, deref w a = some st ∧ { st with stopC := Chan.opened } = newStatus

/-! ## The map and the scheduler: basic facts -/

theorem mapLookup_mapDelete_self (m : List (String × Addr)) (id : String) :
    mapLookup (mapDelete m id) id = none := by
  induction m with
  | nil => rfl
  | cons e rest ih =>
    obtain ⟨k, v⟩ := e
    by_cases h : k = id
    · simpa [mapDelete, h] using ih
    · simpa [mapDelete, h, mapLookup] using ih

theorem mapLookup_mapDelete_ne (m : List (String × Addr)) {id id' : String} (h : id' ≠ id) :
    mapLookup (mapDelete m id) id' = mapLookup m id' := by
  induction m with
  | nil => rfl
  | cons e rest ih =>
    obtain ⟨k, v⟩ := e
    by_cases hk : k = id
    · subst hk
      have hk' : ¬ k = id' := fun hh => h hh.symm
      simpa [mapDelete, mapLookup, hk'] using ih
    · by_cases hk' : k = id'
      · subst hk'
        simp [mapDelete, hk, mapLookup]
      · simpa [mapDelete, hk, mapLookup, hk'] using ih

theorem mapLookup_mapAssign_self (m : List (String × Addr)) (id : String) (s : Addr) :
    mapLookup (mapAssign m id s) id = some s := by
  simp [mapAssign, mapLookup]

theorem mapLookup_mapAssign_ne (m : List (String × Addr)) {id id' : String} (s : Addr)
    (h : id' ≠ id) : mapLookup (mapAssign m id s) id' = mapLookup m id' := by
  have h' : ¬ id = id' := fun hh => h hh.symm
  simp [mapAssign, mapLookup, h', mapLookup_mapDelete_ne m h]

theorem mapLookup_mem {m : List (String × Addr)} {id : String} {a : Addr}
    (h : mapLookup m id = some a) : (id, a) ∈ m := by
  induction m with
  | nil => simp [mapLookup] at h
  | cons e rest ih =>
    obtain ⟨k, v⟩ := e
    by_cases hk : k = id
    · simp [mapLookup, hk] at h
      simp [hk, h]
    · simp [mapLookup, hk] at h
      exact List.mem_cons_of_mem _ (ih h)

theorem mapDelete_eq_self {m : List (String × Addr)} {id : String}
    (h : mapLookup m id = none) : mapDelete m id = m := by
  induction m with
  | nil => rfl
  | cons e rest ih =>
    obtain ⟨k, v⟩ := e
    by_cases hk : k = id
    · simp [mapLookup, hk] at h
    · simp [mapLookup, hk] at h
      have := ih h
      simp [mapDelete, hk] at this ⊢
      exact this

theorem step_p {w w' : World} {e : Event} (h : step w e = some w') : w'.p = w.p := by
  cases e <;> simp only [step] at h <;> (repeat' split at h) <;> simp_all <;> subst h <;> rfl

theorem exec_sched_p (w : World) (e : Event) : (exec w (Call.sched e)).p = w.p := by
  simp only [exec]
  cases h : step w e with
  | none => rfl
  | some w' => exact step_p h

theorem run_sched_p (es : List Event) (w : World) :
    (run w (es.map Call.sched)).p = w.p := by
  induction es generalizing w with
  | nil => rfl
  | cons e rest ih =>
    simp only [List.map_cons, run, List.foldl_cons]
    exact (ih (exec w (Call.sched e))).trans (exec_sched_p w e)

theorem not_active_iff (w : World) (id : String) :
    ¬ active w id ↔ mapLookup w.p.targets id = none := by
  unfold active
  cases mapLookup w.p.targets id <;> simp

theorem Status_fst (w : World) (id : String) : (prober.Status w id).1 = w := by
  unfold prober.Status
  split <;> rfl

theorem Reset_p (w : World) (id : String) : (prober.Reset w id).1.p = w.p := by
  unfold prober.Reset
  repeat' split
  all_goals rfl

theorem AddHTTP_of_active {w : World} {id : String} {a : Addr}
    (h : mapLookup w.p.targets id = some a) (probingInterval : Duration) (endpoint : String) :
    prober.AddHTTP w id probingInterval endpoint = (w, Outcome.returned (some GoError.ErrExist)) := by
  simp [prober.AddHTTP, h]

theorem AddHTTP_targets_of_inactive {w : World} {id : String}
    (h : mapLookup w.p.targets id = none) (probingInterval : Duration) (endpoint : String) :
    (prober.AddHTTP w id probingInterval endpoint).1.p.targets
      = mapAssign w.p.targets id w.heap.length := by
  simp only [prober.AddHTTP, h]
  split <;> rfl

theorem Remove_targets (w : World) (id : String) :
    (prober.Remove w id).1.p.targets = w.p.targets ∨
      (prober.Remove w id).1.p.targets = mapDelete w.p.targets id := by
  unfold prober.Remove
  repeat' split
  all_goals first
    | exact Or.inl rfl
    | exact Or.inr rfl

theorem exec_keeps_binding {w : World} {c : Call} {id : String} {a : Addr}
    (hc : c ≠ Call.Remove id) (h : mapLookup w.p.targets id = some a) :
    mapLookup (exec w c).p.targets id = some a := by
  cases c with
  | AddHTTP id' iv ep =>
    simp only [exec]
    cases h' : mapLookup w.p.targets id' with
    | some b => rw [AddHTTP_of_active h']; exact h
    | none =>
      have hne : id ≠ id' := by
        rintro rfl
        rw [h] at h'
        cases h'
      rw [AddHTTP_targets_of_inactive h', mapLookup_mapAssign_ne _ _ hne]
      exact h
  | Remove id' =>
    have hne : id ≠ id' := by
      rintro rfl
      exact hc rfl
    simp only [exec]
    rcases Remove_targets w id' with h' | h'
    · rw [h']; exact h
    · rw [h', mapLookup_mapDelete_ne _ hne]; exact h
  | Reset id' =>
    simp only [exec]
    rw [Reset_p]; exact h
  | Status id' =>
    simp only [exec]
    rw [Status_fst]; exact h
  | sched e =>
    rw [exec_sched_p]; exact h

theorem run_keeps_binding {id : String} {a : Addr} (cs : List Call) (w : World)
    (hcs : Call.Remove id ∉ cs) (h : mapLookup w.p.targets id = some a) :
    mapLookup (run w cs).p.targets id = some a := by
  induction cs generalizing w with
  | nil => exact h
  | cons c rest ih =>
    simp only [run, List.foldl_cons]
    have hc : c ≠ Call.Remove id := fun hh => hcs (hh ▸ List.mem_cons_self _ _)
    exact ih (exec w c) (fun hh => hcs (List.mem_cons_of_mem _ hh)) (exec_keeps_binding hc h)

/-! ## Adding a target -/

theorem AddHTTP_nil_of_inactive {w : World} {id : String} {iv : Duration}
    (h : mapLookup w.p.targets id = none) (hiv : 0 < iv) (ep : String) :
    (prober.AddHTTP w id iv ep).2 = Outcome.returned none := by
  have hpos : ¬ iv ≤ 0 := not_le.mpr hiv
  simp [prober.AddHTTP, h, hpos]

theorem AddHTTP_binds_of_inactive {w : World} {id : String}
    (h : mapLookup w.p.targets id = none) (iv : Duration) (ep : String) :
    mapLookup (prober.AddHTTP w id iv ep).1.p.targets id = some w.heap.length := by
  rw [AddHTTP_targets_of_inactive h, mapLookup_mapAssign_self]

/-- C1: once `AddHTTP(id, ...)` has returned nil, and whatever calls and monitor steps
follow as long as none of them is `Remove(id)`, `id` is still mapped to the tracker that
call created, and a further `AddHTTP` with the same id returns `ErrExist` and leaves the
whole world (map, trackers, goroutines) exactly as it was. -/
theorem addHTTP_twice_errExist (w : World) (id : String) (iv iv' : Duration)
    (ep ep' : String) (cs : List Call)
    (hadd : (prober.AddHTTP w id iv ep).2 = Outcome.returned none)
    (hcs : Call.Remove id ∉ cs) :
    mapLookup (run (prober.AddHTTP w id iv ep).1 cs).p.targets id = some w.heap.length ∧
    prober.AddHTTP (run (prober.AddHTTP w id iv ep).1 cs) id iv' ep'
      = (run (prober.AddHTTP w id iv ep).1 cs, Outcome.returned (some GoError.ErrExist)) := by
  have hnone : mapLookup w.p.targets id = none := by
    cases h' : mapLookup w.p.targets id with
    | none => rfl
    | some b =>
      rw [AddHTTP_of_active h'] at hadd
      cases hadd
  have hbind : mapLookup (prober.AddHTTP w id iv ep).1.p.targets id = some w.heap.length := by
    rw [AddHTTP_targets_of_inactive hnone, mapLookup_mapAssign_self]
  have hrun := run_keeps_binding cs _ hcs hbind
  exact ⟨hrun, AddHTTP_of_active hrun iv' ep'⟩

/-- Witness for C1: after adding "a" and letting its monitor take a tick and record a
failed check, a second `AddHTTP("a", ...)` is refused. -/
theorem addHTTP_twice_errExist_witness :
    mapLookup (run (prober.AddHTTP NewProber "a" 5 "http://x").1
        [Call.sched (Event.tick 0), Call.sched (Event.selectTick 0 10),
         Call.sched (Event.checkDone 0 HttpResult.failed 12 12)]).p.targets "a" = some 0 ∧
    prober.AddHTTP (run (prober.AddHTTP NewProber "a" 5 "http://x").1
        [Call.sched (Event.tick 0), Call.sched (Event.selectTick 0 10),
         Call.sched (Event.checkDone 0 HttpResult.failed 12 12)]) "a" 7 "http://y"
      = (run (prober.AddHTTP NewProber "a" 5 "http://x").1
        [Call.sched (Event.tick 0), Call.sched (Event.selectTick 0 10),
         Call.sched (Event.checkDone 0 HttpResult.failed 12 12)],
         Outcome.returned (some GoError.ErrExist)) :=
  addHTTP_twice_errExist NewProber "a" 5 7 "http://x" "http://y" _ (by decide) (by decide)

/-- C2: for an id that is not active and a positive interval, `AddHTTP` returns nil; the
tracker it maps `id` to sits at an address that was not allocated before, is in its
creation state with the stop channel not closed, `Status(id)` returns it with a nil
error, one monitor goroutine waiting at its `select` has been started for it, and every
other id and every tracker allocated before are as they were. -/
theorem addHTTP_fresh_id (w : World) (id : String) (iv : Duration) (ep : String)
    (hid : ¬ active w id) (hiv : 0 < iv) :
    (prober.AddHTTP w id iv ep).2 = Outcome.returned none ∧
    deref w w.heap.length = none ∧
    active (prober.AddHTTP w id iv ep).1 id ∧
    mapLookup (prober.AddHTTP w id iv ep).1.p.targets id = some w.heap.length ∧
    deref (prober.AddHTTP w id iv ep).1 w.heap.length = some newStatus ∧
    newStatus.stopC = Chan.opened ∧
    (prober.Status (prober.AddHTTP w id iv ep).1 id).2
      = Outcome.returned (some w.heap.length, none) ∧
    (prober.AddHTTP w id iv ep).1.goroutines
      = w.goroutines ++ [{ s := w.heap.length, endpoint := ep,
                           ticker := { interval := iv, C := false, stopped := false },
                           pc := Pc.selecting }] ∧
    (∀ id', id' ≠ id →
      mapLookup (prober.AddHTTP w id iv ep).1.p.targets id' = mapLookup w.p.targets id') ∧
    (∀ a st, deref w a = some st → deref (prober.AddHTTP w id iv ep).1 a = some st) := by
  have hnone := (not_active_iff w id).1 hid
  have hpos : ¬ iv ≤ 0 := not_le.mpr hiv
  have hbind : mapLookup (prober.AddHTTP w id iv ep).1.p.targets id = some w.heap.length := by
    rw [AddHTTP_targets_of_inactive hnone, mapLookup_mapAssign_self]
  refine ⟨?_, ?_, ?_, hbind, ?_, rfl, ?_, ?_, ?_, ?_⟩
  · simp [prober.AddHTTP, hnone, hpos]
  · simp [deref]
  · simp [active, hbind]
  · simp [prober.AddHTTP, hnone, hpos, deref]
  · simp [prober.Status, hbind]
  · simp [prober.AddHTTP, hnone, hpos]
  · intro id' hne
    rw [AddHTTP_targets_of_inactive hnone, mapLookup_mapAssign_ne _ _ hne]
  · intro a st ha
    have hlt : a < w.heap.length := by
      simp only [deref] at ha
      exact (List.getElem?_eq_some_iff.1 ha).1
    simp only [deref] at ha
    simp [prober.AddHTTP, hnone, hpos, deref, List.getElem?_append_left hlt, ha]

/-- Witness for C2: adding "b" to a prober that already watches "a". -/
theorem addHTTP_fresh_id_witness :
    (prober.AddHTTP (prober.AddHTTP NewProber "a" 5 "http://x").1 "b" 3 "http://y").2
      = Outcome.returned none ∧
    mapLookup (prober.AddHTTP (prober.AddHTTP NewProber "a" 5 "http://x").1 "b" 3
      "http://y").1.p.targets "b" = some 1 ∧
    mapLookup (prober.AddHTTP (prober.AddHTTP NewProber "a" 5 "http://x").1 "b" 3
      "http://y").1.p.targets "a" = some 0 :=
  have h := addHTTP_fresh_id (prober.AddHTTP NewProber "a" 5 "http://x").1 "b" 3 "http://y"
    (by decide) (by decide)
  ⟨h.1, h.2.2.2.1, by decide⟩

/-! ## Ids that are not active -/

theorem Remove_of_inactive {w : World} {id : String} (h : mapLookup w.p.targets id = none) :
    prober.Remove w id = (w, Outcome.returned (some GoError.ErrNotFound)) := by
  simp [prober.Remove, h]

theorem Remove_of_active_ne {w : World} {id : String} {a : Addr}
    (h : mapLookup w.p.targets id = some a) :
    (prober.Remove w id).2 ≠ Outcome.returned (some GoError.ErrNotFound) := by
  simp only [prober.Remove, h]
  repeat' split
  all_goals simp

theorem Remove_nil_targets {w : World} {id : String}
    (h : (prober.Remove w id).2 = Outcome.returned none) :
    (prober.Remove w id).1.p.targets = mapDelete w.p.targets id := by
  revert h
  unfold prober.Remove
  repeat' split
  all_goals simp

theorem Reset_of_inactive {w : World} {id : String} (h : mapLookup w.p.targets id = none) :
    prober.Reset w id = (w, Outcome.returned (some GoError.ErrNotFound)) := by
  simp [prober.Reset, h]

theorem Reset_of_active_ne {w : World} {id : String} {a : Addr}
    (h : mapLookup w.p.targets id = some a) :
    (prober.Reset w id).2 ≠ Outcome.returned (some GoError.ErrNotFound) := by
  simp only [prober.Reset, h]
  repeat' split
  all_goals simp

theorem Status_of_inactive {w : World} {id : String} (h : mapLookup w.p.targets id = none) :
    prober.Status w id = (w, Outcome.returned (none, some GoError.ErrNotFound)) := by
  simp [prober.Status, h]

theorem Status_of_active {w : World} {id : String} {a : Addr}
    (h : mapLookup w.p.targets id = some a) :
    prober.Status w id = (w, Outcome.returned (some a, none)) := by
  simp [prober.Status, h]

theorem exec_keeps_inactive {w : World} {c : Call} {id : String}
    (hc : ∀ iv ep, c ≠ Call.AddHTTP id iv ep) (h : mapLookup w.p.targets id = none) :
    mapLookup (exec w c).p.targets id = none := by
  cases c with
  | AddHTTP id' iv ep =>
    have hne : id ≠ id' := by
      rintro rfl
      exact hc iv ep rfl
    simp only [exec]
    cases h' : mapLookup w.p.targets id' with
    | some b => rw [AddHTTP_of_active h']; exact h
    | none => rw [AddHTTP_targets_of_inactive h', mapLookup_mapAssign_ne _ _ hne]; exact h
  | Remove id' =>
    simp only [exec]
    rcases Remove_targets w id' with h' | h'
    · rw [h']; exact h
    · rw [h']
      by_cases hne : id = id'
      · subst hne; exact mapLookup_mapDelete_self _ _
      · rw [mapLookup_mapDelete_ne _ hne]; exact h
  | Reset id' =>
    simp only [exec]
    rw [Reset_p]; exact h
  | Status id' =>
    simp only [exec]
    rw [Status_fst]; exact h
  | sched e =>
    rw [exec_sched_p]; exact h

theorem run_keeps_inactive {id : String} (cs : List Call) (w : World)
    (hcs : ∀ iv ep, Call.AddHTTP id iv ep ∉ cs) (h : mapLookup w.p.targets id = none) :
    mapLookup (run w cs).p.targets id = none := by
  induction cs generalizing w with
  | nil => exact h
  | cons c rest ih =>
    simp only [run, List.foldl_cons]
    have hc : ∀ iv ep, c ≠ Call.AddHTTP id iv ep :=
      fun iv ep hh => hcs iv ep (hh ▸ List.mem_cons_self _ _)
    exact ih (exec w c) (fun iv ep hh => hcs iv ep (List.mem_cons_of_mem _ hh))
      (exec_keeps_inactive hc h)

/-- C3: in every world and for every id, each of `Remove`, `Reset` and `Status` returns
`ErrNotFound` exactly when the id is not active; `Status` returns an error only together
with a nil status, and that error is `ErrNotFound`; an id that no call of an execution
from `NewProber()` ever added gets `ErrNotFound` from `Remove`; and a `Remove` right
after a `Remove` that returned nil gets `ErrNotFound`. -/
theorem notFound_iff_not_active (w : World) (id : String) :
    ((prober.Remove w id).2 = Outcome.returned (some GoError.ErrNotFound) ↔ ¬ active w id) ∧
    ((prober.Reset w id).2 = Outcome.returned (some GoError.ErrNotFound) ↔ ¬ active w id) ∧
    ((prober.Status w id).2 = Outcome.returned (none, some GoError.ErrNotFound)
      ↔ ¬ active w id) ∧
    (∀ st e, (prober.Status w id).2 = Outcome.returned (st, some e) →
      st = none ∧ e = GoError.ErrNotFound) ∧
    (∀ cs : List Call, (∀ iv ep, Call.AddHTTP id iv ep ∉ cs) →
      (prober.Remove (run NewProber cs) id).2 = Outcome.returned (some GoError.ErrNotFound)) ∧
    ((prober.Remove w id).2 = Outcome.returned none →
      (prober.Remove (prober.Remove w id).1 id).2
        = Outcome.returned (some GoError.ErrNotFound)) := by
  refine ⟨?_, ?_, ?_, ?_, ?_, ?_⟩
  · rw [not_active_iff]
    cases h : mapLookup w.p.targets id with
    | none => simp [Remove_of_inactive h]
    | some a => simpa using Remove_of_active_ne h
  · rw [not_active_iff]
    cases h : mapLookup w.p.targets id with
    | none => simp [Reset_of_inactive h]
    | some a => simpa using Reset_of_active_ne h
  · rw [not_active_iff]
    cases h : mapLookup w.p.targets id with
    | none => simp [Status_of_inactive h]
    | some a => simp [Status_of_active h]
  · intro st e
    cases h : mapLookup w.p.targets id with
    | none =>
      rw [Status_of_inactive h]
      intro heq
      simp only [Outcome.returned.injEq, Prod.mk.injEq, Option.some.injEq] at heq
      exact ⟨heq.1.symm, heq.2.symm⟩
    | some a =>
      rw [Status_of_active h]
      intro heq
      simp at heq
  · intro cs hcs
    rw [Remove_of_inactive (run_keeps_inactive cs NewProber hcs rfl)]
  · intro h
    have hnone : mapLookup (prober.Remove w id).1.p.targets id = none := by
      rw [Remove_nil_targets h]
      exact mapLookup_mapDelete_self _ _
    rw [Remove_of_inactive hnone]

/-- Witness for C3: id "b" was never added, id "a" was added and removed. -/
theorem notFound_iff_not_active_witness :
    (prober.Remove (run NewProber [Call.AddHTTP "a" 5 "http://x"]) "b").2
      = Outcome.returned (some GoError.ErrNotFound) ∧
    (prober.Remove (prober.Remove (prober.AddHTTP NewProber "a" 5 "http://x").1 "a").1 "a").2
      = Outcome.returned (some GoError.ErrNotFound) :=
  ⟨(notFound_iff_not_active NewProber "b").2.2.2.2.1 [Call.AddHTTP "a" 5 "http://x"]
      (by intro iv ep; simp),
   (notFound_iff_not_active (prober.AddHTTP NewProber "a" 5 "http://x").1 "a").2.2.2.2.2
      (by decide)⟩

/-- C6: when `Remove`, `Reset` or `Status` ends with `ErrNotFound`, the world after the
call is the world before it: the map, every tracker (data fields and stop channel) and
every goroutine are unchanged. -/
theorem notFound_changes_nothing (w : World) (id : String) :
    ((prober.Remove w id).2 = Outcome.returned (some GoError.ErrNotFound) →
      (prober.Remove w id).1 = w) ∧
    ((prober.Reset w id).2 = Outcome.returned (some GoError.ErrNotFound) →
      (prober.Reset w id).1 = w) ∧
    (∀ st, (prober.Status w id).2 = Outcome.returned (st, some GoError.ErrNotFound) →
      (prober.Status w id).1 = w) := by
  refine ⟨?_, ?_, ?_⟩
  · intro h
    cases h' : mapLookup w.p.targets id with
    | none => rw [Remove_of_inactive h']
    | some a => exact absurd h (Remove_of_active_ne h')
  · intro h
    cases h' : mapLookup w.p.targets id with
    | none => rw [Reset_of_inactive h']
    | some a => exact absurd h (Reset_of_active_ne h')
  · intro st _
    exact Status_fst w id

/-- Witness for C6: the three calls on the id "b", which is not active next to "a". -/
theorem notFound_changes_nothing_witness :
    (prober.Remove (prober.AddHTTP NewProber "a" 5 "http://x").1 "b").1
      = (prober.AddHTTP NewProber "a" 5 "http://x").1 ∧
    (prober.Reset (prober.AddHTTP NewProber "a" 5 "http://x").1 "b").1
      = (prober.AddHTTP NewProber "a" 5 "http://x").1 ∧
    (prober.Status (prober.AddHTTP NewProber "a" 5 "http://x").1 "b").1
      = (prober.AddHTTP NewProber "a" 5 "http://x").1 :=
  ⟨(notFound_changes_nothing (prober.AddHTTP NewProber "a" 5 "http://x").1 "b").1 (by decide),
   (notFound_changes_nothing (prober.AddHTTP NewProber "a" 5 "http://x").1 "b").2.1
     (by decide),
   (notFound_changes_nothing (prober.AddHTTP NewProber "a" 5 "http://x").1 "b").2.2 none
     (by decide)⟩

/-! ## Removing a target -/

theorem Remove_nil_heap {w : World} {id : String} {s : Addr}
    (hs : mapLookup w.p.targets id = some s)
    (h : (prober.Remove w id).2 = Outcome.returned none) :
    ∃ st, deref w s = some st ∧ st.stopC = Chan.opened ∧
      (prober.Remove w id).1.heap = w.heap.set s { st with stopC := Chan.closed } ∧
      (prober.Remove w id).1.goroutines = w.goroutines := by
  revert h
  simp only [prober.Remove, hs]
  cases hd : deref w s with
  | none => simp
  | some st =>
    cases hc : st.stopC with
    | closed => simp [hc]
    | opened => simp [hc]

/-- C4: after `Remove(id)` has returned nil the id is not active.  `Status(id)` returns
`ErrNotFound` then and after any further steps of the monitor goroutines, so also when a
check of that target was in flight at the removal and completes later; `AddHTTP` with the
same id and a positive interval returns nil and makes the id active again; every other id
is mapped as before, and every tracker but the removed one is untouched. -/
theorem remove_then_notFound (w : World) (id : String)
    (h : (prober.Remove w id).2 = Outcome.returned none) :
    ¬ active (prober.Remove w id).1 id ∧
    (∀ es : List Event,
      (prober.Status (run (prober.Remove w id).1 (es.map Call.sched)) id).2
        = Outcome.returned (none, some GoError.ErrNotFound)) ∧
    (∀ iv ep, 0 < iv →
      (prober.AddHTTP (prober.Remove w id).1 id iv ep).2 = Outcome.returned none ∧
      active (prober.AddHTTP (prober.Remove w id).1 id iv ep).1 id) ∧
    (∀ id', id' ≠ id →
      mapLookup (prober.Remove w id).1.p.targets id' = mapLookup w.p.targets id') ∧
    (∀ s a, mapLookup w.p.targets id = some s → a ≠ s →
      deref (prober.Remove w id).1 a = deref w a) := by
  have hnone : mapLookup (prober.Remove w id).1.p.targets id = none := by
    rw [Remove_nil_targets h]
    exact mapLookup_mapDelete_self _ _
  refine ⟨(not_active_iff _ _).2 hnone, ?_, ?_, ?_, ?_⟩
  · intro es
    have hp := run_sched_p es (prober.Remove w id).1
    have hnone' : mapLookup (run (prober.Remove w id).1 (es.map Call.sched)).p.targets id
        = none := by
      rw [hp]; exact hnone
    rw [Status_of_inactive hnone']
  · intro iv ep hiv
    refine ⟨AddHTTP_nil_of_inactive hnone hiv ep, ?_⟩
    simp [active, AddHTTP_binds_of_inactive hnone iv ep]
  · intro id' hne
    rw [Remove_nil_targets h, mapLookup_mapDelete_ne _ hne]
  · intro s a hs hne
    obtain ⟨st, _, _, hheap, _⟩ := Remove_nil_heap hs h
    simp only [deref, hheap]
    exact List.getElem?_set_ne (Ne.symm hne)

/-- Witness for C4: "a" is removed while its monitor is inside a check (it took a tick at
time 10 and waits for `http.Get`); the check then completes, and `Status("a")` still
returns `ErrNotFound`, while "b" stays mapped to its tracker. -/
theorem remove_then_notFound_witness :
    (run NewProber [Call.AddHTTP "a" 5 "http://x", Call.AddHTTP "b" 3 "http://y",
        Call.sched (Event.tick 0), Call.sched (Event.selectTick 0 10)]).goroutines[0]?.map
      Monitor.pc = some (Pc.checking 10) ∧
    (prober.Status (run (prober.Remove (run NewProber [Call.AddHTTP "a" 5 "http://x",
        Call.AddHTTP "b" 3 "http://y", Call.sched (Event.tick 0),
        Call.sched (Event.selectTick 0 10)]) "a").1
      ([Event.checkDone 0 (HttpResult.response 200 (some { OK := true, Now := 11 })) 12 12].map
        Call.sched)) "a").2
      = Outcome.returned (none, some GoError.ErrNotFound) ∧
    mapLookup (prober.Remove (run NewProber [Call.AddHTTP "a" 5 "http://x",
        Call.AddHTTP "b" 3 "http://y", Call.sched (Event.tick 0),
        Call.sched (Event.selectTick 0 10)]) "a").1.p.targets "b" = some 1 :=
  have h := remove_then_notFound (run NewProber [Call.AddHTTP "a" 5 "http://x",
        Call.AddHTTP "b" 3 "http://y", Call.sched (Event.tick 0),
        Call.sched (Event.selectTick 0 10)]) "a" (by decide)
  ⟨by decide, h.2.1 _, (h.2.2.2.1 "b" (by decide)).trans (by decide)⟩

/-! ## The invariant of executions -/

theorem deref_lt {w : World} {a : Addr} {st : status} (h : deref w a = some st) :
    a < w.heap.length := by
  simp only [deref] at h
  exact (List.getElem?_eq_some_iff.1 h).1

theorem stopC_lt {w : World} {a : Addr} {c : Chan}
    (h : (deref w a).map status.stopC = some c) : a < w.heap.length := by
  cases hd : deref w a with
  | none => simp [hd] at h
  | some st => exact deref_lt hd

theorem set_stopC_same {w : World} {s : Addr} {st v : status} (hd : deref w s = some st)
    (hv : v.stopC = st.stopC) (a : Addr) :
    ((w.heap.set s v)[a]?).map status.stopC = (deref w a).map status.stopC := by
  by_cases hs : s = a
  · subst hs
    have hlt := deref_lt hd
    simp [List.getElem?_set_self hlt, hd, hv]
  · simp [List.getElem?_set_ne hs, deref]

theorem applyWrite_stopC (now : Time) (st : status) (wr : Write) :
    (applyWrite now st wr).stopC = st.stopC := by
  cases wr <;> rfl

theorem foldl_applyWrite_stopC (now : Time) (ws : List Write) (st : status) :
    (ws.foldl (applyWrite now) st).stopC = st.stopC := by
  induction ws generalizing st with
  | nil => rfl
  | cons wr rest ih =>
    simp only [List.foldl_cons]
    rw [ih, applyWrite_stopC]

theorem snd_inj_of_nodup {l : List (String × Addr)} (h : (l.map Prod.snd).Nodup)
    {x y : String} {a : Addr} (hx : (x, a) ∈ l) (hy : (y, a) ∈ l) : x = y := by
  induction l with
  | nil => cases hx
  | cons e rest ih =>
    simp only [List.map_cons, List.nodup_cons] at h
    rcases List.mem_cons.1 hx with hx | hx <;> rcases List.mem_cons.1 hy with hy | hy
    · rw [← hx] at hy
      exact (Prod.mk.inj hy).1.symm
    · exact absurd (List.mem_map_of_mem Prod.snd hy) (by rw [← hx] at h; exact h.1)
    · exact absurd (List.mem_map_of_mem Prod.snd hx) (by rw [← hy] at h; exact h.1)
    · exact ih h.2 hx hy

theorem mem_mapDelete {m : List (String × Addr)} {id : String} {e : String × Addr}
    (h : e ∈ mapDelete m id) : e ∈ m ∧ e.1 ≠ id := by
  simpa [mapDelete] using h

theorem Inv_NewProber : Inv NewProber := by
  refine ⟨?_, ?_, ?_⟩
  · intro id a h; cases h
  · exact List.nodup_nil
  · intro m h; cases h

theorem AddHTTP_Inv {w : World} (h : Inv w) (id : String) (iv : Duration) (ep : String) :
    Inv (prober.AddHTTP w id iv ep).1 := by
  obtain ⟨h1, h2, h3⟩ := h
  cases hl : mapLookup w.p.targets id with
  | some b => rw [AddHTTP_of_active hl]; exact ⟨h1, h2, h3⟩
  | none =>
    have hheap : (prober.AddHTTP w id iv ep).1.heap = w.heap ++ [newStatus] := by
      simp only [prober.AddHTTP, hl]
      split <;> rfl
    have htar : (prober.AddHTTP w id iv ep).1.p.targets = (id, w.heap.length) :: w.p.targets := by
      rw [AddHTTP_targets_of_inactive hl, mapAssign, mapDelete_eq_self hl]
    have hgo : ∀ m ∈ (prober.AddHTTP w id iv ep).1.goroutines,
        m ∈ w.goroutines ∨ m.s = w.heap.length := by
      simp only [prober.AddHTTP, hl]
      split
      · intro m hm; exact Or.inl hm
      · intro m hm
        rcases List.mem_append.1 hm with hm | hm
        · exact Or.inl hm
        · right
          rw [List.mem_singleton.1 hm]
    refine ⟨?_, ?_, ?_⟩
    · intro id' a hmem
      rw [htar] at hmem
      simp only [deref, hheap]
      rcases List.mem_cons.1 hmem with heq | hmem
      · rw [(Prod.mk.inj heq).2]
        simp
        rfl
      · have hold := h1 id' a hmem
        rw [List.getElem?_append_left (stopC_lt hold)]
        exact hold
    · rw [htar]
      simp only [List.map_cons, List.nodup_cons]
      refine ⟨?_, h2⟩
      intro hmem
      obtain ⟨e, he, hea⟩ := List.mem_map.1 hmem
      have hlt := stopC_lt (h1 e.1 e.2 he)
      rw [hea] at hlt
      exact lt_irrefl _ hlt
    · intro m hm
      rw [hheap, List.length_append]
      rcases hgo m hm with hm | hm
      · exact Nat.lt_add_right _ (h3 m hm)
      · rw [hm]; simp

theorem Remove_Inv {w : World} (h : Inv w) (id : String) : Inv (prober.Remove w id).1 := by
  obtain ⟨h1, h2, h3⟩ := h
  cases hl : mapLookup w.p.targets id with
  | none => rw [Remove_of_inactive hl]; exact ⟨h1, h2, h3⟩
  | some s =>
    cases hr : (prober.Remove w id).2 with
    | panicked =>
      have : (prober.Remove w id).1 = w := by
        revert hr
        simp only [prober.Remove, hl]
        repeat' split
        all_goals simp
      rw [this]; exact ⟨h1, h2, h3⟩
    | returned v =>
      cases v with
      | some e =>
        have : (prober.Remove w id).1 = w := by
          revert hr
          simp only [prober.Remove, hl]
          repeat' split
          all_goals simp
        rw [this]; exact ⟨h1, h2, h3⟩
      | none =>
        obtain ⟨st, hd, _, hheap, hgo⟩ := Remove_nil_heap hl hr
        have htar := Remove_nil_targets hr
        refine ⟨?_, ?_, ?_⟩
        · intro id' a hmem
          rw [htar] at hmem
          obtain ⟨hmem, hne⟩ := mem_mapDelete hmem
          have hne' : s ≠ a := by
            rintro rfl
            exact hne (snd_inj_of_nodup h2 hmem (mapLookup_mem hl))
          simp only [deref, hheap, List.getElem?_set_ne hne']
          exact h1 id' a hmem
        · rw [htar]
          exact h2.sublist ((List.filter_sublist _).map _)
        · intro m hm
          rw [hgo] at hm
          rw [hheap, List.length_set]
          exact h3 m hm

theorem Reset_Inv {w : World} (h : Inv w) (id : String) : Inv (prober.Reset w id).1 := by
  obtain ⟨h1, h2, h3⟩ := h
  cases hl : mapLookup w.p.targets id with
  | none => rw [Reset_of_inactive hl]; exact ⟨h1, h2, h3⟩
  | some s =>
    cases hd : deref w s with
    | none =>
      have : (prober.Reset w id).1 = w := by simp [prober.Reset, hl, hd]
      rw [this]; exact ⟨h1, h2, h3⟩
    | some st =>
      have hw : (prober.Reset w id).1 = { w with heap := w.heap.set s st.reset } := by
        simp [prober.Reset, hl, hd]
      rw [hw]
      refine ⟨?_, h2, ?_⟩
      · intro id' a hmem
        simp only [deref]
        rw [set_stopC_same (v := st.reset) hd rfl a]
        exact h1 id' a hmem
      · intro m hm
        simp only [List.length_set]
        exact h3 m hm

theorem step_Inv {w w' : World} (h : Inv w) {e : Event} (hs : step w e = some w') :
    Inv w' := by
  obtain ⟨h1, h2, h3⟩ := h
  have hgo : ∀ (g : Nat) (m m' : Monitor), w.goroutines[g]? = some m → m'.s = m.s →
      ∀ x ∈ w.goroutines.set g m', x.s < w.heap.length := by
    intro g m m' hg hm' x hx
    rcases List.mem_or_eq_of_mem_set hx with hx | hx
    · exact h3 x hx
    · rw [hx, hm']
      exact h3 m (List.getElem?_mem hg)
  cases e with
  | tick g =>
    simp only [step] at hs
    cases hg : w.goroutines[g]? with
    | none => simp [hg] at hs
    | some m =>
      simp only [hg] at hs
      split at hs
      · cases hs
      · cases hs
        exact ⟨h1, h2, hgo g m _ hg rfl⟩
  | selectTick g start =>
    simp only [step] at hs
    cases hg : w.goroutines[g]? with
    | none => simp [hg] at hs
    | some m =>
      simp only [hg] at hs
      split at hs
      · split at hs
        · cases hs
          exact ⟨h1, h2, hgo g m _ hg rfl⟩
        · cases hs
      · cases hs
  | checkDone g r finish now =>
    simp only [step] at hs
    cases hg : w.goroutines[g]? with
    | none => simp [hg] at hs
    | some m =>
      simp only [hg] at hs
      split at hs
      · cases hd : deref w m.s with
        | none => simp [hd] at hs
        | some st =>
          simp only [hd] at hs
          cases hs
          refine ⟨?_, h2, ?_⟩
          · intro id' a hmem
            simp only [deref]
            rw [set_stopC_same hd (foldl_applyWrite_stopC _ _ _) a]
            exact h1 id' a hmem
          · intro x hx
            simp only [List.length_set]
            exact hgo g m { m with pc := Pc.selecting } hg rfl x hx
      · cases hs
  | selectStop g =>
    simp only [step] at hs
    cases hg : w.goroutines[g]? with
    | none => simp [hg] at hs
    | some m =>
      simp only [hg] at hs
      split at hs
      · cases hd : deref w m.s with
        | none => simp [hd] at hs
        | some st =>
          simp only [hd] at hs
          split at hs
          · cases hs
            exact ⟨h1, h2, hgo g m _ hg rfl⟩
          · cases hs
      · cases hs

theorem exec_Inv {w : World} (h : Inv w) (c : Call) : Inv (exec w c) := by
  cases c with
  | AddHTTP id iv ep => exact AddHTTP_Inv h id iv ep
  | Remove id => exact Remove_Inv h id
  | Reset id => exact Reset_Inv h id
  | Status id =>
    simp only [exec]
    rw [Status_fst]; exact h
  | sched e =>
    simp only [exec]
    cases hs : step w e with
    | none => exact h
    | some w' => exact step_Inv h hs

theorem run_Inv (cs : List Call) {w : World} (h : Inv w) : Inv (run w cs) := by
  induction cs generalizing w with
  | nil => exact h
  | cons c rest ih =>
    simp only [run, List.foldl_cons]
    exact ih (exec_Inv h c)

theorem Reachable_Inv {w : World} (h : Reachable w) : Inv w := by
  obtain ⟨cs, rfl⟩ := h
  exact run_Inv cs Inv_NewProber

/-- C9: in every world reachable from `NewProber()` by method calls and monitor steps,
every tracker the map points to has a stop channel that is not closed, and no two ids are
mapped to the same tracker.  Hence `Remove` never panics there, and on an active id it
returns nil after closing a channel that was not closed before: no stop channel is closed
twice. -/
theorem reachable_stop_channels_open (w : World) (h : Reachable w) :
    (∀ id a, mapLookup w.p.targets id = some a →
      (deref w a).map status.stopC = some Chan.opened) ∧
    (∀ id₁ id₂ a, mapLookup w.p.targets id₁ = some a →
      mapLookup w.p.targets id₂ = some a → id₁ = id₂) ∧
    (∀ id, (prober.Remove w id).2 ≠ Outcome.panicked) ∧
    (∀ id a, mapLookup w.p.targets id = some a →
      (prober.Remove w id).2 = Outcome.returned none ∧
      (deref (prober.Remove w id).1 a).map status.stopC = some Chan.closed) := by
  obtain ⟨h1, h2, _⟩ := Reachable_Inv h
  have hrem : ∀ id a, mapLookup w.p.targets id = some a →
      (prober.Remove w id).2 = Outcome.returned none ∧
      (deref (prober.Remove w id).1 a).map status.stopC = some Chan.closed := by
    intro id a hl
    have hopen := h1 id a (mapLookup_mem hl)
    cases hd : deref w a with
    | none => simp [hd] at hopen
    | some st =>
      have hc : st.stopC = Chan.opened := by simpa [hd] using hopen
      have hlt := deref_lt hd
      simp only [prober.Remove, hl, hd, hc]
      simp [deref, List.getElem?_set_self hlt]
  refine ⟨fun id a hl => h1 id a (mapLookup_mem hl), ?_, ?_, hrem⟩
  · intro id₁ id₂ a hl₁ hl₂
    exact snd_inj_of_nodup h2 (mapLookup_mem hl₁) (mapLookup_mem hl₂)
  · intro id
    cases hl : mapLookup w.p.targets id with
    | none => simp [Remove_of_inactive hl]
    | some a => simp [(hrem id a hl).1]

/-- Witness for C9: a world reached by adding two targets, running a check of the first,
removing it and adding it again; removing it once more returns nil. -/
theorem reachable_stop_channels_open_witness :
    (prober.Remove (run NewProber [Call.AddHTTP "a" 5 "http://x",
        Call.AddHTTP "b" 3 "http://y", Call.sched (Event.tick 0),
        Call.sched (Event.selectTick 0 10), Call.Remove "a",
        Call.AddHTTP "a" 2 "http://z"]) "a").2 = Outcome.returned none :=
  ((reachable_stop_channels_open (run NewProber [Call.AddHTTP "a" 5 "http://x",
        Call.AddHTTP "b" 3 "http://y", Call.sched (Event.tick 0),
        Call.sched (Event.selectTick 0 10), Call.Remove "a",
        Call.AddHTTP "a" 2 "http://z"]) ⟨_, rfl⟩).2.2.2 "a" 2 (by decide)).1

/-! ## A tracker without a monitor -/

theorem AddHTTP_heap_of_inactive {w : World} {id : String}
    (h : mapLookup w.p.targets id = none) (iv : Duration) (ep : String) :
    (prober.AddHTTP w id iv ep).1.heap = w.heap ++ [newStatus] := by
  simp only [prober.AddHTTP, h]
  split <;> rfl

theorem AddHTTP_goroutines (w : World) (id : String) (iv : Duration) (ep : String) :
    ∀ m ∈ (prober.AddHTTP w id iv ep).1.goroutines, m ∈ w.goroutines ∨ m.s = w.heap.length := by
  cases h : mapLookup w.p.targets id with
  | some b =>
    rw [AddHTTP_of_active h]
    intro m hm; exact Or.inl hm
  | none =>
    simp only [prober.AddHTTP, h]
    split
    · intro m hm; exact Or.inl hm
    · intro m hm
      rcases List.mem_append.1 hm with hm | hm
      · exact Or.inl hm
      · right
        rw [List.mem_singleton.1 hm]

theorem Remove_cases (w : World) (id : String) :
    (prober.Remove w id).1 = w ∨
    ∃ s st, deref w s = some st ∧
      (prober.Remove w id).1 =
        { w with heap := w.heap.set s { st with stopC := Chan.closed }
                 p := { targets := mapDelete w.p.targets id } } := by
  cases hl : mapLookup w.p.targets id with
  | none => left; simp [prober.Remove, hl]
  | some s =>
    cases hd : deref w s with
    | none => left; simp [prober.Remove, hl, hd]
    | some st =>
      cases hc : st.stopC with
      | closed => left; simp [prober.Remove, hl, hd, hc]
      | opened => right; exact ⟨s, st, hd, by simp [prober.Remove, hl, hd, hc]⟩

theorem Reset_cases (w : World) (id : String) :
    (prober.Reset w id).1 = w ∨
    ∃ s st, deref w s = some st ∧
      (prober.Reset w id).1 = { w with heap := w.heap.set s st.reset } := by
  cases hl : mapLookup w.p.targets id with
  | none => left; simp [prober.Reset, hl]
  | some s =>
    cases hd : deref w s with
    | none => left; simp [prober.Reset, hl, hd]
    | some st => right; exact ⟨s, st, hd, by simp [prober.Reset, hl, hd]⟩

theorem step_cases {w w' : World} {e : Event} (h : step w e = some w') :
    ∃ m m', w.goroutines[e.goroutine]? = some m ∧ m'.s = m.s ∧
      w'.goroutines = w.goroutines.set e.goroutine m' ∧ w'.p = w.p ∧
      (w'.heap = w.heap ∨
        ∃ st start r finish now, e = Event.checkDone e.goroutine r finish now ∧
          m.pc = Pc.checking start ∧ deref w m.s = some st ∧
          w'.heap = w.heap.set m.s ((tickWrites start r finish).foldl (applyWrite now) st)) := by
  cases e with
  | tick g =>
    simp only [step] at h
    cases hg : w.goroutines[g]? with
    | none => simp [hg] at h
    | some m =>
      simp only [hg] at h
      split at h
      · cases h
      · cases h
        exact ⟨m, { m with ticker := { m.ticker with C := true } }, hg, rfl, rfl, rfl,
          Or.inl rfl⟩
  | selectTick g start =>
    simp only [step] at h
    cases hg : w.goroutines[g]? with
    | none => simp [hg] at h
    | some m =>
      simp only [hg] at h
      split at h
      · split at h
        · cases h
          exact ⟨m, { m with ticker := { m.ticker with C := false }, pc := Pc.checking start },
            hg, rfl, rfl, rfl, Or.inl rfl⟩
        · cases h
      · cases h
  | checkDone g r finish now =>
    simp only [step] at h
    cases hg : w.goroutines[g]? with
    | none => simp [hg] at h
    | some m =>
      simp only [hg] at h
      split at h
      · rename_i start hpc
        cases hd : deref w m.s with
        | none => simp [hd] at h
        | some st =>
          simp only [hd] at h
          cases h
          exact ⟨m, { m with pc := Pc.selecting }, hg, rfl, rfl, rfl,
            Or.inr ⟨st, start, r, finish, now, rfl, hpc, hd, rfl⟩⟩
      · cases h
  | selectStop g =>
    simp only [step] at h
    cases hg : w.goroutines[g]? with
    | none => simp [hg] at h
    | some m =>
      simp only [hg] at h
      split at h
      · cases hd : deref w m.s with
        | none => simp [hd] at h
        | some st =>
          simp only [hd] at h
          split at h
          · cases h
            exact ⟨m, { m with ticker := { m.ticker with stopped := true }, pc := Pc.exited },
              hg, rfl, rfl, rfl, Or.inl rfl⟩
          · cases h
      · cases h

theorem exec_Unwatched {a : Addr} {w : World} (h : Unwatched a w) (c : Call) :
    Unwatched a (exec w c) := by
  obtain ⟨hgo, st, hd, hst⟩ := h
  have hlt := deref_lt hd
  cases c with
  | AddHTTP id iv ep =>
    simp only [exec]
    refine ⟨?_, st, ?_, hst⟩
    · intro m hm
      rcases AddHTTP_goroutines w id iv ep m hm with hm | hm
      · exact hgo m hm
      · rw [hm]; exact Nat.ne_of_gt hlt
    · cases hl : mapLookup w.p.targets id with
      | some b => rw [AddHTTP_of_active hl]; exact hd
      | none =>
        simp only [deref, AddHTTP_heap_of_inactive hl, List.getElem?_append_left hlt]
        exact hd
  | Remove id =>
    simp only [exec]
    rcases Remove_cases w id with hw | ⟨s, st', hd', hw⟩
    · rw [hw]; exact ⟨hgo, st, hd, hst⟩
    · rw [hw]
      refine ⟨hgo, ?_⟩
      by_cases hs : s = a
      · subst hs
        rw [hd] at hd'
        cases hd'
        exact ⟨{ st with stopC := Chan.closed }, by simp [deref, List.getElem?_set_self hlt],
          hst⟩
      · exact ⟨st, by simpa [deref, List.getElem?_set_ne hs] using hd, hst⟩
  | Reset id =>
    simp only [exec]
    rcases Reset_cases w id with hw | ⟨s, st', hd', hw⟩
    · rw [hw]; exact ⟨hgo, st, hd, hst⟩
    · rw [hw]
      refine ⟨hgo, ?_⟩
      by_cases hs : s = a
      · subst hs
        exact ⟨st'.reset, by simp [deref, List.getElem?_set_self hlt], rfl⟩
      · exact ⟨st, by simpa [deref, List.getElem?_set_ne hs] using hd, hst⟩
  | Status id =>
    simp only [exec]
    rw [Status_fst]; exact ⟨hgo, st, hd, hst⟩
  | sched e =>
    simp only [exec]
    cases hs : step w e with
    | none => exact ⟨hgo, st, hd, hst⟩
    | some w' =>
      show Unwatched a w'
      obtain ⟨m, m', hg, hm', hgo', _, hheap⟩ := step_cases hs
      have hma : m.s ≠ a := hgo m (List.getElem?_mem hg)
      refine ⟨?_, st, ?_, hst⟩
      · intro x hx
        rw [hgo'] at hx
        rcases List.mem_or_eq_of_mem_set hx with hx | hx
        · exact hgo x hx
        · rw [hx, hm']; exact hma
      · rcases hheap with hheap | ⟨st', start, r, finish, now, _, _, _, hheap⟩
        · simpa [deref, hheap] using hd
        · simpa [deref, hheap, List.getElem?_set_ne hma] using hd

theorem run_Unwatched {a : Addr} (cs : List Call) {w : World} (h : Unwatched a w) :
    Unwatched a (run w cs) := by
  induction cs generalizing w with
  | nil => exact h
  | cons c rest ih =>
    simp only [run, List.foldl_cons]
    exact ih (exec_Unwatched h c)

/-- C10: for an id that is not active and a non-positive interval, `AddHTTP` panics
(it does not return), yet the world it leaves has the id active and mapped to a tracker
allocated by the call, with no goroutine started.  `Status(id)` returns that tracker with
a nil error; in every continuation by method calls and monitor steps no goroutine ever
watches that tracker and its data fields stay what they were at creation (no check is
recorded in it); and a later `AddHTTP` with the same id returns `ErrExist`, whatever the
interval. -/
theorem addHTTP_nonpositive_interval (w : World) (id : String) (iv : Duration) (ep : String)
    (hw : Reachable w) (hid : ¬ active w id) (hiv : iv ≤ 0) :
    (prober.AddHTTP w id iv ep).2 = Outcome.panicked ∧
    active (prober.AddHTTP w id iv ep).1 id ∧
    mapLookup (prober.AddHTTP w id iv ep).1.p.targets id = some w.heap.length ∧
    deref w w.heap.length = none ∧
    (prober.AddHTTP w id iv ep).1.goroutines = w.goroutines ∧
    (prober.Status (prober.AddHTTP w id iv ep).1 id).2
      = Outcome.returned (some w.heap.length, none) ∧
    (∀ cs : List Call,
      (∀ m ∈ (run (prober.AddHTTP w id iv ep).1 cs).goroutines, m.s ≠ w.heap.length) ∧
      ∃ st, deref (run (prober.AddHTTP w id iv ep).1 cs) w.heap.length = some st ∧
        { st with stopC := Chan.opened } = newStatus) ∧
    (∀ iv' ep', prober.AddHTTP (prober.AddHTTP w id iv ep).1 id iv' ep'
      = ((prober.AddHTTP w id iv ep).1, Outcome.returned (some GoError.ErrExist))) := by
  have hnone := (not_active_iff w id).1 hid
  have hbind : mapLookup (prober.AddHTTP w id iv ep).1.p.targets id = some w.heap.length := by
    rw [AddHTTP_targets_of_inactive hnone, mapLookup_mapAssign_self]
  have hgo : (prober.AddHTTP w id iv ep).1.goroutines = w.goroutines := by
    simp [prober.AddHTTP, hnone, hiv]
  have hun : Unwatched w.heap.length (prober.AddHTTP w id iv ep).1 := by
    refine ⟨?_, newStatus, ?_, rfl⟩
    · intro m hm
      rw [hgo] at hm
      exact Nat.ne_of_lt ((Reachable_Inv hw).2.2 m hm)
    · simp [deref, AddHTTP_heap_of_inactive hnone]
  refine ⟨?_, ?_, hbind, ?_, hgo, ?_, ?_, ?_⟩
  · simp [prober.AddHTTP, hnone, hiv]
  · simp [active, hbind]
  · simp [deref]
  · rw [Status_of_active hbind]
  · intro cs
    exact run_Unwatched cs hun
  · intro iv' ep'
    exact AddHTTP_of_active hbind iv' ep'

/-- Witness for C10: `AddHTTP("b", 0, ...)` on a prober that watches "a". -/
theorem addHTTP_nonpositive_interval_witness :
    (prober.AddHTTP (run NewProber [Call.AddHTTP "a" 5 "http://x"]) "b" 0 "http://y").2
      = Outcome.panicked ∧
    (prober.Status (prober.AddHTTP (run NewProber [Call.AddHTTP "a" 5 "http://x"]) "b" 0
      "http://y").1 "b").2 = Outcome.returned (some 1, none) ∧
    prober.AddHTTP (prober.AddHTTP (run NewProber [Call.AddHTTP "a" 5 "http://x"]) "b" 0
      "http://y").1 "b" 4 "http://y"
      = ((prober.AddHTTP (run NewProber [Call.AddHTTP "a" 5 "http://x"]) "b" 0 "http://y").1,
         Outcome.returned (some GoError.ErrExist)) :=
  have h := addHTTP_nonpositive_interval (run NewProber [Call.AddHTTP "a" 5 "http://x"]) "b" 0
    "http://y" ⟨_, rfl⟩ (by decide) (by decide)
  ⟨h.1, h.2.2.2.2.2.1, h.2.2.2.2.2.2.2 4 "http://y"⟩

/-! ## The monitor loop -/

theorem tickWrites_singleton (start : Time) (r : HttpResult) (finish : Time) :
    ∃ wr, tickWrites start r finish = [wr] ∧
      (wr = Write.recordFailure ↔
        (r = HttpResult.failed ∨ (∃ code, r = HttpResult.response code none) ∨
          ∃ code hh, r = HttpResult.response code (some hh) ∧ hh.OK = false)) ∧
      (∀ code hh, r = HttpResult.response code (some hh) → hh.OK = true →
        wr = Write.record (finish - start) hh.Now) := by
  cases r with
  | failed => exact ⟨Write.recordFailure, rfl, by simp, by simp⟩
  | response code decoded =>
    cases decoded with
    | none => exact ⟨Write.recordFailure, rfl, by simp, by simp⟩
    | some hh =>
      cases hok : hh.OK with
      | false =>
        refine ⟨Write.recordFailure, by simp [tickWrites, hok],
          ⟨fun _ => Or.inr (Or.inr ⟨code, hh, rfl, hok⟩), fun _ => rfl⟩, ?_⟩
        intro code' hh' heq hok'
        simp only [HttpResult.response.injEq, Option.some.injEq] at heq
        rw [← heq.2, hok] at hok'
        cases hok'
      | true =>
        refine ⟨Write.record (finish - start) hh.Now, by simp [tickWrites, hok], ?_, ?_⟩
        · simp [hok]
        · intro code' hh' heq _
          simp only [HttpResult.response.injEq, Option.some.injEq] at heq
          rw [← heq.2]

/-- C7: a tick taken by a monitor makes no write when it is taken (it only records the
start time), and when its check ends the goroutine makes exactly one call on its own
tracker: `recordFailure()` if `http.Get` failed, or the body did not decode, or the
payload is not OK, and otherwise `record(finish - start, hh.Now)` with `start` the time
read when the tick was taken.  Whatever the kind of failure the resulting world is the
same, no other tracker changes, and the goroutine is back at its `select`. -/
theorem tick_makes_one_write (w : World) (g : Nat) (m : Monitor) (start : Time) (st : status)
    (r : HttpResult) (finish now : Time)
    (hg : w.goroutines[g]? = some m) (hpc : m.pc = Pc.checking start)
    (hd : deref w m.s = some st) :
    (∀ (u u' : World) (t : Time), step u (Event.selectTick g t) = some u' →
      u'.heap = u.heap ∧ u'.goroutines[g]?.map Monitor.pc = some (Pc.checking t)) ∧
    ∃ wr : Write,
      tickWrites start r finish = [wr] ∧
      (wr = Write.recordFailure ↔
        (r = HttpResult.failed ∨ (∃ code, r = HttpResult.response code none) ∨
          ∃ code hh, r = HttpResult.response code (some hh) ∧ hh.OK = false)) ∧
      (∀ code hh, r = HttpResult.response code (some hh) → hh.OK = true →
        wr = Write.record (finish - start) hh.Now) ∧
      step w (Event.checkDone g r finish now) =
        some { w with
               heap := w.heap.set m.s (applyWrite now st wr)
               goroutines := w.goroutines.set g { m with pc := Pc.selecting } } := by
  constructor
  · intro u u' t hs
    simp only [step] at hs
    cases hu : u.goroutines[g]? with
    | none => simp [hu] at hs
    | some mu =>
      simp only [hu] at hs
      split at hs
      · split at hs
        · cases hs
          have hlt : g < u.goroutines.length := (List.getElem?_eq_some_iff.1 hu).1
          simp [List.getElem?_set_self hlt]
        · cases hs
      · cases hs
  · obtain ⟨wr, hwr, hfail, hok⟩ := tickWrites_singleton start r finish
    refine ⟨wr, hwr, hfail, hok, ?_⟩
    simp [step, hg, hpc, hd, hwr]

/-- Witness for C7: the monitor of "a" took a tick at time 10; the check ends at time 12
with a payload that is OK and carries the remote time 11. -/
theorem tick_makes_one_write_witness :
    step (run NewProber [Call.AddHTTP "a" 5 "http://x", Call.sched (Event.tick 0),
        Call.sched (Event.selectTick 0 10)])
      (Event.checkDone 0 (HttpResult.response 200 (some { OK := true, Now := 11 })) 12 13)
    = some { heap := [newStatus.record 13 2 11], p := { targets := [("a", 0)] },
             goroutines := [{ s := 0, endpoint := "http://x",
                              ticker := { interval := 5, C := false, stopped := false },
                              pc := Pc.selecting }] } := by
  obtain ⟨wr, _, _, hok, hstep⟩ := (tick_makes_one_write (run NewProber
        [Call.AddHTTP "a" 5 "http://x", Call.sched (Event.tick 0),
         Call.sched (Event.selectTick 0 10)]) 0
      { s := 0, endpoint := "http://x",
        ticker := { interval := 5, C := false, stopped := false }, pc := Pc.checking 10 }
      10 newStatus (HttpResult.response 200 (some { OK := true, Now := 11 })) 12 13
      (by decide) rfl (by decide)).2
  rw [hstep, hok 200 _ rfl rfl]
  decide

/-! ## Cancellation -/

theorem step_exited_none {w : World} {m : Monitor} {e : Event}
    (hg : w.goroutines[e.goroutine]? = some m) (hpc : m.pc = Pc.exited)
    (hst : m.ticker.stopped = true) : step w e = none := by
  cases e <;> simp only [Event.goroutine] at hg <;> simp [step, hg, hpc, hst]

theorem AddHTTP_goroutines_append (w : World) (id : String) (iv : Duration) (ep : String) :
    ∃ l, (prober.AddHTTP w id iv ep).1.goroutines = w.goroutines ++ l := by
  cases h : mapLookup w.p.targets id with
  | some b => exact ⟨[], by rw [AddHTTP_of_active h]; simp⟩
  | none =>
    simp only [prober.AddHTTP, h]
    split
    · exact ⟨[], by simp⟩
    · exact ⟨_, rfl⟩

theorem exec_keeps_exited {w : World} {g : Nat} {m : Monitor} (c : Call)
    (hg : w.goroutines[g]? = some m) (hpc : m.pc = Pc.exited)
    (hst : m.ticker.stopped = true) : (exec w c).goroutines[g]? = some m := by
  cases c with
  | AddHTTP id iv ep =>
    simp only [exec]
    obtain ⟨l, hl⟩ := AddHTTP_goroutines_append w id iv ep
    rw [hl, List.getElem?_append_left (List.getElem?_eq_some_iff.1 hg).1]
    exact hg
  | Remove id =>
    simp only [exec]
    rcases Remove_cases w id with hw | ⟨s, st, _, hw⟩ <;> rw [hw] <;> exact hg
  | Reset id =>
    simp only [exec]
    rcases Reset_cases w id with hw | ⟨s, st, _, hw⟩ <;> rw [hw] <;> exact hg
  | Status id =>
    simp only [exec]
    rw [Status_fst]; exact hg
  | sched e =>
    simp only [exec]
    cases hs : step w e with
    | none => exact hg
    | some w' =>
      show w'.goroutines[g]? = some m
      obtain ⟨m₀, m', hg₀, _, hgo, _, _⟩ := step_cases hs
      by_cases he : e.goroutine = g
      · rw [he] at hg₀
        rw [hg] at hg₀
        cases hg₀
        rw [← he] at hg
        rw [step_exited_none hg hpc hst] at hs
        cases hs
      · rw [hgo, List.getElem?_set_ne he]
        exact hg

theorem run_keeps_exited {g : Nat} {m : Monitor} (cs : List Call) {w : World}
    (hg : w.goroutines[g]? = some m) (hpc : m.pc = Pc.exited)
    (hst : m.ticker.stopped = true) : (run w cs).goroutines[g]? = some m := by
  induction cs generalizing w with
  | nil => exact hg
  | cons c rest ih =>
    simp only [run, List.foldl_cons]
    exact ih (exec_keeps_exited c hg hpc hst)

/-- C8, the claim as stated, fails: the monitor of "a" is inside a check when its ticker
delivers the next tick and `Remove("a")` closes the stop channel.  When the check ends and
the loop is back at its `select`, the tick is pending and the signal has fired; both cases
are ready, the tick case can be taken, and the check it starts is recorded in the tracker
after the cancellation. -/
theorem tick_after_cancellation_counterexample :
    (prober.Remove (run NewProber [Call.AddHTTP "a" 5 "http://x", Call.sched (Event.tick 0),
        Call.sched (Event.selectTick 0 10), Call.sched (Event.tick 0)]) "a").2
      = Outcome.returned none ∧
    run NewProber [Call.AddHTTP "a" 5 "http://x", Call.sched (Event.tick 0),
        Call.sched (Event.selectTick 0 10), Call.sched (Event.tick 0), Call.Remove "a",
        Call.sched (Event.checkDone 0 HttpResult.failed 12 12)]
      = { heap := [{ (newStatus.recordFailure 12) with stopC := Chan.closed }],
          p := { targets := [] },
          goroutines := [{ s := 0, endpoint := "http://x",
                           ticker := { interval := 5, C := true, stopped := false },
                           pc := Pc.selecting }] } ∧
    (step (run NewProber [Call.AddHTTP "a" 5 "http://x", Call.sched (Event.tick 0),
        Call.sched (Event.selectTick 0 10), Call.sched (Event.tick 0), Call.Remove "a",
        Call.sched (Event.checkDone 0 HttpResult.failed 12 12)]) (Event.selectTick 0 20)).map
      (fun u => u.goroutines.map Monitor.pc) = some [Pc.checking 20] ∧
    (deref (run NewProber [Call.AddHTTP "a" 5 "http://x", Call.sched (Event.tick 0),
        Call.sched (Event.selectTick 0 10), Call.sched (Event.tick 0), Call.Remove "a",
        Call.sched (Event.checkDone 0 HttpResult.failed 12 12),
        Call.sched (Event.selectTick 0 20),
        Call.sched (Event.checkDone 0 HttpResult.failed 21 21)]) 0).map status.totalChecks
      = some 2 := by
  decide

/-- C8 as amended: when the stop channel of a monitor's tracker is closed and the
goroutine is at its `select`, the stop case can be taken, and it stops the ticker and
ends the goroutine; if no tick is pending the tick case cannot be taken, and if one is
pending it can (the `select` does not prefer the stop case).  Once the stop case has been
taken, in every continuation the goroutine stays ended: it receives no tick, takes none
and completes no check. -/
theorem stop_case_after_cancellation (w : World) (g : Nat) (m : Monitor) (st : status)
    (hg : w.goroutines[g]? = some m) (hpc : m.pc = Pc.selecting)
    (hd : deref w m.s = some st) (hc : st.stopC = Chan.closed) :
    step w (Event.selectStop g) =
      some { w with
             goroutines := w.goroutines.set g
               { m with ticker := { m.ticker with stopped := true }, pc := Pc.exited } } ∧
    (m.ticker.C = false → ∀ start, step w (Event.selectTick g start) = none) ∧
    (m.ticker.C = true → ∀ start, (step w (Event.selectTick g start)).isSome = true) ∧
    (∀ (u : World) (cs : List Call), step w (Event.selectStop g) = some u →
      (run u cs).goroutines[g]?.map Monitor.pc = some Pc.exited ∧
      ∀ e : Event, e.goroutine = g → step (run u cs) e = none) := by
  have hstop : step w (Event.selectStop g) =
      some { w with
             goroutines := w.goroutines.set g
               { m with ticker := { m.ticker with stopped := true }, pc := Pc.exited } } := by
    simp [step, hg, hpc, hd, hc]
  refine ⟨hstop, ?_, ?_, ?_⟩
  · intro hC start
    simp [step, hg, hpc, hC]
  · intro hC start
    simp [step, hg, hpc, hC]
  · intro u cs hu
    rw [hstop] at hu
    cases hu
    have hlt : g < w.goroutines.length := (List.getElem?_eq_some_iff.1 hg).1
    have hrun := run_keeps_exited cs
      (w := { w with
              goroutines := w.goroutines.set g
                { m with ticker := { m.ticker with stopped := true }, pc := Pc.exited } })
      (g := g) (m := { m with ticker := { m.ticker with stopped := true }, pc := Pc.exited })
      (by simp [List.getElem?_set_self hlt]) rfl rfl
    refine ⟨by rw [hrun]; rfl, ?_⟩
    intro e he
    subst he
    exact step_exited_none hrun rfl rfl

/-- Witness for C8 as amended: "a" is removed while its monitor waits with no tick
pending; the stop case is taken, and afterwards, whatever else happens, the goroutine
never takes a tick. -/
theorem stop_case_after_cancellation_witness :
    step (run NewProber [Call.AddHTTP "a" 5 "http://x", Call.Remove "a"])
        (Event.selectTick 0 20) = none ∧
    (run (run NewProber [Call.AddHTTP "a" 5 "http://x", Call.Remove "a",
        Call.sched (Event.selectStop 0)])
      [Call.AddHTTP "a" 2 "http://z", Call.sched (Event.tick 0)]).goroutines[0]?.map
        Monitor.pc = some Pc.exited :=
  have h := stop_case_after_cancellation
    (run NewProber [Call.AddHTTP "a" 5 "http://x", Call.Remove "a"]) 0
    { s := 0, endpoint := "http://x",
      ticker := { interval := 5, C := false, stopped := false }, pc := Pc.selecting }
    { newStatus with stopC := Chan.closed } (by decide) rfl (by decide) rfl
  ⟨h.2.1 rfl 20,
   (h.2.2.2 (run NewProber [Call.AddHTTP "a" 5 "http://x", Call.Remove "a",
        Call.sched (Event.selectStop 0)])
      [Call.AddHTTP "a" 2 "http://z", Call.sched (Event.tick 0)] (by decide)).1⟩

/-! ## What `Status` returns -/

/-- C5, the claim as stated, fails: `Status("a")` returns the address `0` held by the
map; the total of checks read through it is `0` at that moment, `1` after the monitor of
"a" has recorded a failed check, and `0` again after `Reset("a")`. -/
theorem status_snapshot_counterexample :
    prober.Status (run NewProber [Call.AddHTTP "a" 5 "http://x"]) "a"
      = (run NewProber [Call.AddHTTP "a" 5 "http://x"], Outcome.returned (some 0, none)) ∧
    (deref (run NewProber [Call.AddHTTP "a" 5 "http://x"]) 0).map status.totalChecks
      = some 0 ∧
    (deref (run NewProber [Call.AddHTTP "a" 5 "http://x", Call.Status "a",
        Call.sched (Event.tick 0), Call.sched (Event.selectTick 0 10),
        Call.sched (Event.checkDone 0 HttpResult.failed 12 12)]) 0).map status.totalChecks
      = some 1 ∧
    (deref (run NewProber [Call.AddHTTP "a" 5 "http://x", Call.Status "a",
        Call.sched (Event.tick 0), Call.sched (Event.selectTick 0 10),
        Call.sched (Event.checkDone 0 HttpResult.failed 12 12),
        Call.Reset "a"]) 0).map status.totalChecks
      = some 0 := by
  decide

/-- C5 as amended: `Status(id)` on an active id returns, with a nil error, the very
pointer the map holds for `id`, and creates nothing (the world is unchanged).  What is
read through the returned pointer is the tracker itself: after `Reset(id)` it reads the
reset tracker, and after the target's monitor has completed a check it reads the tracker
with that check recorded. -/
theorem status_returns_live_tracker (w : World) (id : String) (a : Addr) (st : status)
    (hl : mapLookup w.p.targets id = some a) (hd : deref w a = some st) :
    prober.Status w id = (w, Outcome.returned (some a, none)) ∧
    deref (prober.Reset w id).1 a = some st.reset ∧
    (∀ (g : Nat) (m : Monitor) (start : Time) (r : HttpResult) (finish now : Time),
      w.goroutines[g]? = some m → m.s = a → m.pc = Pc.checking start →
      deref (exec w (Call.sched (Event.checkDone g r finish now))) a
        = some ((tickWrites start r finish).foldl (applyWrite now) st)) := by
  have hlt := deref_lt hd
  refine ⟨Status_of_active hl, ?_, ?_⟩
  · simp only [prober.Reset, hl, hd]
    simp [deref, List.getElem?_set_self hlt]
  · intro g m start r finish now hg hs hpc
    subst hs
    simp only [exec, step, hg, hpc, hd]
    simp [deref, List.getElem?_set_self hlt]

/-- Witness for C5 as amended: the pointer returned for "a" reads a tracker with one
failed check after the monitor has recorded it. -/
theorem status_returns_live_tracker_witness :
    prober.Status (run NewProber [Call.AddHTTP "a" 5 "http://x", Call.sched (Event.tick 0),
        Call.sched (Event.selectTick 0 10)]) "a"
      = (run NewProber [Call.AddHTTP "a" 5 "http://x", Call.sched (Event.tick 0),
        Call.sched (Event.selectTick 0 10)], Outcome.returned (some 0, none)) ∧
    deref (exec (run NewProber [Call.AddHTTP "a" 5 "http://x", Call.sched (Event.tick 0),
        Call.sched (Event.selectTick 0 10)])
      (Call.sched (Event.checkDone 0 HttpResult.failed 12 13))) 0
      = some (newStatus.recordFailure 13) :=
  have h := status_returns_live_tracker
    (run NewProber [Call.AddHTTP "a" 5 "http://x", Call.sched (Event.tick 0),
        Call.sched (Event.selectTick 0 10)]) "a" 0 newStatus (by decide) (by decide)
  ⟨h.1, h.2.2 0
    { s := 0, endpoint := "http://x",
      ticker := { interval := 5, C := false, stopped := false }, pc := Pc.checking 10 }
    10 HttpResult.failed 12 13 (by decide) rfl rfl⟩

end probing
